import Mathlib

/-!
Shallow embedding of the two codec files of `umrt-arm-firmware-lib`:

* `src/CommunicationMaster.py` — integer packing (`pack_32`, `pack_16`),
  the Firmata 7-bit framing codec (`firmatify`, `defirmatify`) and the
  little-endian decoders (`decode_32`, `decode_16`).
* `src/MksTest.py` — the MKS stepper-driver bus frame builders
  (`Commands.checksum`, `set_speed`, `send_step`, `seek_pos_by_steps`)
  and the CAN message formatting helper (`format_canmsg`).

Bytes are modelled as `Nat` (a Python `bytearray` element is in `[0,255]`;
every operation below only ever appends values `< 256`).  Python's `x & 0xFF`
on an `int` is `x % 256` with a non-negative result and `x >> k` is an
arithmetic (floor) shift, which for Lean's `Int` are exactly `%` (`Int.emod`)
and `/ 2^k` (`Int.ediv`), both Euclidean, so those are used in the
translation of the packers.
-/

set_option maxRecDepth 8000

/-- Translation of `pack_32` (CommunicationMaster.py, lines 33-52):
little-endian bytes `integer >> 8*i & 0xFF` for `i = 0,1,2,3`. -/
def pack_32 (integer : Int) : List Nat :=
  [(integer % 256).toNat,            -- integer & 0xFF, bits [7, 0]
   (integer / 256 % 256).toNat,      -- integer >> 8 & 0xFF, bits [15, 8]
   (integer / 65536 % 256).toNat,    -- integer >> 16 & 0xFF, bits [23, 16]
   (integer / 16777216 % 256).toNat] -- integer >> 24 & 0xFF, bits [31, 24]

/-- Translation of `pack_16` (CommunicationMaster.py, lines 55-71):
little-endian bytes `integer >> 8*i & 0xFF` for `i = 0,1`. -/
def pack_16 (integer : Int) : List Nat :=
  [(integer % 256).toNat,       -- integer & 0xFF, bits [7, 0]
   (integer / 256 % 256).toNat] -- integer >> 8 & 0xFF, bits [15, 8]

/-- Translation of `firmatify` (CommunicationMaster.py, lines 74-93):
for each byte `p` append `p & 0x7F` then `(p & 0x80) >> 7`. -/
def firmatify : List Nat → List Nat
  | [] => []
  | p :: rest => (p &&& 0x7F) :: ((p &&& 0x80) >>> 7) :: firmatify rest

/-- Python exceptions that the embedded code can surface.  The code of
`defirmatify` raises `IndexError` (via `data[i + 1]` past the end of an
odd-length input) and `ValueError` (via `bytearray.append` when a
reassembled value exceeds 255); the spec's error taxonomy also names
`MalformedFrameError`, which no code in the repository ever raises, but
which is needed to state the spec's claim about odd-length frames. -/
inductive PyErr where
  | indexError : PyErr
  | valueError : PyErr
  | malformedFrameError : PyErr
deriving DecidableEq, Repr

/-- Translation of `defirmatify` (CommunicationMaster.py, lines 96-109):
`for i in range(0, len(data), 2): b.append(data[i] | data[i + 1] << 7)`.
The pairs are processed left to right.  `bytearray.append` checks its
argument is in `[0, 255]` and raises `ValueError` otherwise (reachable
whenever `data[i] | data[i + 1] << 7` overflows a byte, e.g. if the
odd-indexed element is 2 or more); on an odd-length input the final
iteration's `data[i + 1]` is out of range and Python raises `IndexError`.
Either exception discards the partial buffer. -/
def defirmatify : List Nat → Except PyErr (List Nat)
  | [] => .ok []
  | [_] => .error .indexError
  | lo :: hi :: rest =>
    if lo ||| hi <<< 7 < 256 then
      match defirmatify rest with
      | .ok b => .ok ((lo ||| hi <<< 7) :: b)
      | .error e => .error e
    else .error .valueError

/-- Little-endian value of a byte list, first byte least significant
(the core of Python's `int.from_bytes(bytes, byteorder='little')`). -/
def fromBytesLE (bs : List Nat) : Nat :=
  bs.foldr (fun b acc => b + 256 * acc) 0

/-- Python's `int.from_bytes(bs, byteorder='little', signed=signed)`:
the unsigned little-endian value, reinterpreted in two's complement over
`8 * len(bs)` bits when `signed` is set and the top bit is 1. -/
def intFromBytesLE (bs : List Nat) (signed : Bool) : Int :=
  let u := fromBytesLE bs
  if signed = true ∧ 2 ^ (8 * bs.length) ≤ 2 * u then
    (u : Int) - 2 ^ (8 * bs.length)
  else
    (u : Int)

/-- Translation of `decode_32` (CommunicationMaster.py, lines 112-121):
`int.from_bytes(data[offset:offset + 4], byteorder='little', signed=signed)`. -/
def decode_32 (data : List Nat) (offset : Nat) (signed : Bool) : Int :=
  intFromBytesLE ((data.drop offset).take 4) signed

/-- Translation of `decode_16` (CommunicationMaster.py, lines 124-133):
`int.from_bytes(data[offset:offset + 2], byteorder='little', signed=signed)`. -/
def decode_16 (data : List Nat) (offset : Nat) (signed : Bool) : Int :=
  intFromBytesLE ((data.drop offset).take 2) signed

/-- A single byte survives the 7-bit split/reassemble:
`(p & 0x7F) | ((p & 0x80) >> 7) << 7 = p` for `p < 256`. -/
theorem sevenbit_byte_roundtrip :
    ∀ p, p < 256 → (p &&& 0x7F) ||| (((p &&& 0x80) >>> 7) <<< 7) = p := by
  decide

/-- C1: for every byte sequence `x` (each element in `[0,255]`),
`defirmatify (firmatify x)` succeeds and returns `x` exactly. -/
theorem defirmatify_firmatify_roundtrip (x : List Nat) (hx : ∀ b ∈ x, b < 256) :
    defirmatify (firmatify x) = .ok x := by
  induction x with
  | nil => rfl
  | cons p rest ih =>
    have hp : p < 256 := hx p (List.mem_cons_self ..)
    have hrest : ∀ b ∈ rest, b < 256 := fun b hb => hx b (List.mem_cons_of_mem _ hb)
    simp only [firmatify, defirmatify]
    rw [sevenbit_byte_roundtrip p hp, if_pos hp, ih hrest]

/-- C1 witness: the docstring example `[0xEF, 0xBE, 0xAD, 0xDE]` round-trips. -/
theorem defirmatify_firmatify_roundtrip_witness :
    defirmatify (firmatify [0xEF, 0xBE, 0xAD, 0xDE]) = .ok [0xEF, 0xBE, 0xAD, 0xDE] :=
  defirmatify_firmatify_roundtrip [0xEF, 0xBE, 0xAD, 0xDE] (by decide)

/-- C2: the packed little-endian bytes are `(v >> 8*i) & 0xFF`, and unpacking
at offset 0 with matching width and signedness inverts packing for every `v`
representable in that width with that signedness. -/
theorem pack_decode_roundtrip (v : Int) :
    ((0 ≤ v ∧ v < 2 ^ 16) → decode_16 (pack_16 v) 0 false = v) ∧
    ((-(2 ^ 15) ≤ v ∧ v < 2 ^ 15) → decode_16 (pack_16 v) 0 true = v) ∧
    ((0 ≤ v ∧ v < 2 ^ 32) → decode_32 (pack_32 v) 0 false = v) ∧
    ((-(2 ^ 31) ≤ v ∧ v < 2 ^ 31) → decode_32 (pack_32 v) 0 true = v) ∧
    (∀ i < 2, (pack_16 v).get? i = some (v / 2 ^ (8 * i) % 256).toNat) ∧
    (∀ i < 4, (pack_32 v).get? i = some (v / 2 ^ (8 * i) % 256).toNat) := by
  refine ⟨?_, ?_, ?_, ?_, ?_, ?_⟩
  · rintro ⟨h0, h1⟩
    simp only [decode_16, pack_16, List.drop, List.take, intFromBytesLE, fromBytesLE,
      List.foldr, List.length]
    rw [if_neg (by simp)]
    push_cast
    omega
  · rintro ⟨h0, h1⟩
    simp only [decode_16, pack_16, List.drop, List.take, intFromBytesLE, fromBytesLE,
      List.foldr, List.length]
    split
    · rename_i hcond
      simp only [true_and] at hcond
      push_cast
      norm_num at hcond ⊢
      omega
    · rename_i hcond
      simp only [true_and] at hcond
      push_cast
      norm_num at hcond ⊢
      omega
  · rintro ⟨h0, h1⟩
    simp only [decode_32, pack_32, List.drop, List.take, intFromBytesLE, fromBytesLE,
      List.foldr, List.length]
    rw [if_neg (by simp)]
    push_cast
    omega
  · rintro ⟨h0, h1⟩
    simp only [decode_32, pack_32, List.drop, List.take, intFromBytesLE, fromBytesLE,
      List.foldr, List.length]
    split
    · rename_i hcond
      simp only [true_and] at hcond
      push_cast
      norm_num at hcond ⊢
      omega
    · rename_i hcond
      simp only [true_and] at hcond
      push_cast
      norm_num at hcond ⊢
      omega
  · intro i hi
    interval_cases i <;> simp [pack_16]
  · intro i hi
    interval_cases i <;> simp [pack_32]

/-- C2 witness: the signed 32-bit round trip at `v = -0x4000`, and the
byte formula for `pack_32 0xDEADBEEF` at index 1. -/
theorem pack_decode_roundtrip_witness :
    decode_32 (pack_32 (-0x4000)) 0 true = -0x4000 ∧
    (pack_32 0xDEADBEEF).get? 1 = some ((0xDEADBEEF : Int) / 2 ^ (8 * 1) % 256).toNat :=
  ⟨(pack_decode_roundtrip (-0x4000)).2.2.2.1 (by norm_num),
   (pack_decode_roundtrip 0xDEADBEEF).2.2.2.2.2 1 (by norm_num)⟩

/-- Translation of `Commands.checksum` (MksTest.py, lines 697-702):
`cs = device_id; for n in payload: cs = (cs + n) & 0xFF; return cs`. -/
def Commands.checksum (device_id : Nat) (payload : List Nat) : Nat :=
  payload.foldl (fun cs n => (cs + n) &&& 0xFF) device_id

/-- Opcode `SET_SPEED = 0xF6` (MksTest.py, line 551). -/
def Commands.SET_SPEED : Nat := 0xF6

/-- Opcode `SEND_STEP = 0xFD` (MksTest.py, line 599). -/
def Commands.SEND_STEP : Nat := 0xFD

/-- Opcode `SEEK_POS_BY_STEPS = 0xFE` (MksTest.py, line 628). -/
def Commands.SEEK_POS_BY_STEPS : Nat := 0xFE

/-- Python's `n.to_bytes(length, 'big')` for an in-range unsigned `n`
(`n < 2^(8*length)`): big-endian, most significant byte first. -/
def toBytesBE (length n : Nat) : List Nat :=
  (List.range length).map (fun i => n / 2 ^ (8 * (length - 1 - i)) % 256)

/-- Python's `v.to_bytes(length, 'big', signed=True)` for an in-range `v`
(`-2^(8*length-1) ≤ v < 2^(8*length-1)`): the two's-complement residue
`v % 2^(8*length)` written big-endian. -/
def toBytesBESigned (length : Nat) (v : Int) : List Nat :=
  toBytesBE length (v % ((2 : Int) ^ (8 * length))).toNat

/-- A `can.Message` as the MksTest.py builders construct it: an arbitration
id (the driver CAN id) and a data payload. -/
structure CanMessage where
  arbitration_id : Nat
  data : List Nat
deriving DecidableEq, Repr

/-- Translation of `format_canmsg` (MksTest.py, lines 705-714): the device
address followed by the message payload. -/
def format_canmsg (msg : CanMessage) : List Nat :=
  msg.arbitration_id :: msg.data

/-- Translation of `set_speed` (MksTest.py, lines 733-757):
payload `[SET_SPEED, (speed & 0xF00) >> 8 | (dir & 0x1) << 7, speed & 0xFF]`
`+ accel.to_bytes(1, 'big')`, then the checksum seeded by the CAN id. -/
def set_speed (driver_can_id : Nat) (dir : Bool) (speed : Nat) (accel : Nat) : CanMessage :=
  let speed_properties_low := (speed &&& 0xF00) >>> 8 ||| (if dir then 1 else 0) <<< 7
  let speed_properties_high := speed &&& 0xFF
  let payload := [Commands.SET_SPEED, speed_properties_low, speed_properties_high]
    ++ toBytesBE 1 accel
  { arbitration_id := driver_can_id
    data := payload ++ [Commands.checksum driver_can_id payload] }

/-- Translation of `send_step` (MksTest.py, lines 760-787): like `set_speed`
but with opcode `SEND_STEP` and `steps.to_bytes(3, 'big')` appended before
the checksum. -/
def send_step (driver_can_id : Nat) (dir : Bool) (speed : Nat) (accel : Nat)
    (steps : Nat) : CanMessage :=
  let speed_properties_low := (speed &&& 0xF00) >>> 8 ||| (if dir then 1 else 0) <<< 7
  let speed_properties_high := speed &&& 0xFF
  let payload := [Commands.SEND_STEP, speed_properties_low, speed_properties_high]
    ++ toBytesBE 1 accel ++ toBytesBE 3 steps
  { arbitration_id := driver_can_id
    data := payload ++ [Commands.checksum driver_can_id payload] }

/-- Translation of `seek_pos_by_steps` (MksTest.py, lines 790-810):
payload `[SEEK_POS_BY_STEPS] + speed.to_bytes(2, 'big') +`
`accel.to_bytes(1, 'big') + pos.to_bytes(3, 'big', signed=True)`, then the
checksum seeded by the CAN id. -/
def seek_pos_by_steps (driver_can_id : Nat) (speed : Nat) (accel : Nat)
    (pos : Int) : CanMessage :=
  let payload := [Commands.SEEK_POS_BY_STEPS]
    ++ toBytesBE 2 speed ++ toBytesBE 1 accel ++ toBytesBESigned 3 pos
  { arbitration_id := driver_can_id
    data := payload ++ [Commands.checksum driver_can_id payload] }

/-- C5: the absolute-position-seek frames from the manual-comparison test,
`seek_pos_by_steps(1, 600, 2, 0x4000)` and `seek_pos_by_steps(1, 600, 2, -0x4000)`,
formatted with the device address first. -/
theorem seek_pos_by_steps_literal_frames :
    format_canmsg (seek_pos_by_steps 1 600 2 0x4000)
      = [0x01, 0xFE, 0x02, 0x58, 0x02, 0x00, 0x40, 0x00, 0x9B] ∧
    format_canmsg (seek_pos_by_steps 1 600 2 (-0x4000))
      = [0x01, 0xFE, 0x02, 0x58, 0x02, 0xFF, 0xC0, 0x00, 0x1A] := by
  constructor <;> rfl

/-- C6 counterexample: with direction bit 1 (`dir = true`, CW) the code's
own manual-comparison test produces `01 F6 81 40 02 BA`, not
`01 F6 01 40 02 3A` as the claim states; the latter frame belongs to
direction bit 0. -/
theorem set_speed_literal_counterexample :
    format_canmsg (set_speed 1 true 320 2) = [0x01, 0xF6, 0x81, 0x40, 0x02, 0xBA] ∧
    format_canmsg (set_speed 1 true 320 2) ≠ [0x01, 0xF6, 0x01, 0x40, 0x02, 0x3A] ∧
    format_canmsg (set_speed 1 false 320 2) ≠ [0x01, 0xF6, 0x81, 0x40, 0x02, 0xBA] := by
  exact ⟨rfl, by decide, by decide⟩

/-- C6 amended: a SET_SPEED frame with speed 320, acceleration 2, device
id 1, opcode 0xF6 and direction bit 1 (CW) is `01 F6 81 40 02 BA`, and with
direction bit 0 (CCW) it is `01 F6 01 40 02 3A`. -/
theorem set_speed_literal_frames :
    format_canmsg (set_speed 1 true 320 2) = [0x01, 0xF6, 0x81, 0x40, 0x02, 0xBA] ∧
    format_canmsg (set_speed 1 false 320 2) = [0x01, 0xF6, 0x01, 0x40, 0x02, 0x3A] :=
  ⟨rfl, rfl⟩

/-- Masking with `0xFF` is reduction modulo 256. -/
theorem and_255_eq_mod (x : Nat) : x &&& 255 = x % 256 := by
  have h := Nat.and_pow_two_sub_one_eq_mod x 8
  norm_num at h
  exact h

/-- The checksum accumulator stays below 256 once the seed is. -/
theorem checksum_lt_256 (payload : List Nat) (d : Nat) (h : d < 256) :
    Commands.checksum d payload < 256 := by
  induction payload generalizing d with
  | nil => exact h
  | cons n rest ih =>
    show Commands.checksum ((d + n) &&& 0xFF) rest < 256
    exact ih _ (by rw [and_255_eq_mod]; exact Nat.mod_lt _ (by norm_num))

/-- For a seed below 256 the left fold of `(cs + n) & 0xFF` is the sum of
the seed and all payload bytes, reduced modulo 256. -/
theorem checksum_foldl_mod (payload : List Nat) (d : Nat) (h : d < 256) :
    Commands.checksum d payload = (d + payload.sum) % 256 := by
  induction payload generalizing d with
  | nil => simpa [Commands.checksum] using (Nat.mod_eq_of_lt h).symm
  | cons n rest ih =>
    show Commands.checksum ((d + n) &&& 0xFF) rest = _
    rw [and_255_eq_mod, ih _ (Nat.mod_lt _ (by norm_num)), List.sum_cons]
    omega

/-- C3: for a u8 device id, `Commands.checksum` is the running sum seeded
by the device id and reduced modulo 256, and it is a pure function of the
device id and the exact payload byte sequence. -/
theorem checksum_mod_sum (device_id : Nat) (payload : List Nat) (h : device_id < 256) :
    Commands.checksum device_id payload = (device_id + payload.sum) % 256 ∧
    ∀ d p, d = device_id → p = payload →
      Commands.checksum d p = Commands.checksum device_id payload := by
  refine ⟨checksum_foldl_mod payload device_id h, ?_⟩
  intro d p hd hp
  rw [hd, hp]

/-- C3 witness: the checksum of the SET_SPEED example payload under seed 1. -/
theorem checksum_mod_sum_witness :
    Commands.checksum 1 [0xF6, 0x01, 0x40, 0x02] = (1 + [0xF6, 0x01, 0x40, 0x02].sum) % 256 ∧
    ∀ d p, d = 1 → p = [0xF6, 0x01, 0x40, 0x02] →
      Commands.checksum d p = Commands.checksum 1 [0xF6, 0x01, 0x40, 0x02] :=
  checksum_mod_sum 1 [0xF6, 0x01, 0x40, 0x02] (by norm_num)

/-- C10: with an empty payload the checksum returns the seed unreduced, so
a device id of 256 or more passes through out of u8 range; the modulo-256
reduction only happens once at least one payload byte is folded in. -/
theorem checksum_empty_seed (device_id : Nat) (h : 256 ≤ device_id) :
    Commands.checksum device_id [] = device_id ∧
    256 ≤ Commands.checksum device_id [] ∧
    ∀ payload : List Nat, payload ≠ [] → Commands.checksum device_id payload < 256 := by
  refine ⟨rfl, h, ?_⟩
  intro payload hp
  match payload with
  | n :: rest =>
    show Commands.checksum ((device_id + n) &&& 0xFF) rest < 256
    exact checksum_lt_256 _ _ (by rw [and_255_eq_mod]; exact Nat.mod_lt _ (by norm_num))

/-- C10 witness: a seed of 300 with an empty payload comes back as 300. -/
theorem checksum_empty_seed_witness :
    Commands.checksum 300 [] = 300 ∧
    256 ≤ Commands.checksum 300 [] ∧
    ∀ payload : List Nat, payload ≠ [] → Commands.checksum 300 payload < 256 :=
  checksum_empty_seed 300 (by norm_num)

/-- Selecting bits 8-11 then shifting is shifting then selecting the low
nibble: `(x & 0xF00) >> 8 = (x >> 8) & 0x0F`. -/
theorem and_f00_shiftRight (x : Nat) : (x &&& 0xF00) >>> 8 = x >>> 8 &&& 0x0F := by
  apply Nat.eq_of_testBit_eq
  intro i
  simp only [Nat.testBit_shiftRight, Nat.testBit_and]
  congr 1
  rw [show (0xF00 : Nat) = 15 <<< 8 from rfl, Nat.testBit_shiftLeft]
  simp

/-- Arithmetic form of the speed high-nibble extraction. -/
theorem and_f00_shiftRight_arith (x : Nat) : (x &&& 0xF00) >>> 8 = x / 256 % 16 := by
  rw [and_f00_shiftRight, Nat.shiftRight_eq_div_pow,
    show (0x0F : Nat) = 2 ^ 4 - 1 from rfl, Nat.and_pow_two_sub_one_eq_mod]

/-- C4: in both `set_speed` and `send_step` the speed+direction field is
the two bytes right after the opcode, with
`byte0 = ((speed >> 8) & 0x0F) | (direction_bit << 7)` and
`byte1 = speed & 0xFF`, and those bytes only depend on the low 12 bits of
the speed (and on the single direction bit). -/
theorem speed_direction_field (speed : Nat) (dir : Bool) (id accel steps : Nat) :
    ((set_speed id dir speed accel).data.get? 1
        = some (speed >>> 8 &&& 0x0F ||| (if dir then 1 else 0) <<< 7) ∧
     (set_speed id dir speed accel).data.get? 2 = some (speed &&& 0xFF)) ∧
    ((send_step id dir speed accel steps).data.get? 1
        = some (speed >>> 8 &&& 0x0F ||| (if dir then 1 else 0) <<< 7) ∧
     (send_step id dir speed accel steps).data.get? 2 = some (speed &&& 0xFF)) ∧
    ((set_speed id dir (speed % 4096) accel).data.get? 1
        = (set_speed id dir speed accel).data.get? 1 ∧
     (set_speed id dir (speed % 4096) accel).data.get? 2
        = (set_speed id dir speed accel).data.get? 2) := by
  refine ⟨⟨?_, ?_⟩, ⟨?_, ?_⟩, ?_, ?_⟩
  · show some ((speed &&& 0xF00) >>> 8 ||| (if dir then 1 else 0) <<< 7)
        = some (speed >>> 8 &&& 0x0F ||| (if dir then 1 else 0) <<< 7)
    rw [and_f00_shiftRight]
  · rfl
  · show some ((speed &&& 0xF00) >>> 8 ||| (if dir then 1 else 0) <<< 7)
        = some (speed >>> 8 &&& 0x0F ||| (if dir then 1 else 0) <<< 7)
    rw [and_f00_shiftRight]
  · rfl
  · show some ((speed % 4096 &&& 0xF00) >>> 8 ||| (if dir then 1 else 0) <<< 7)
        = some ((speed &&& 0xF00) >>> 8 ||| (if dir then 1 else 0) <<< 7)
    simp only [and_f00_shiftRight_arith]
    have h : speed % 4096 / 256 % 16 = speed / 256 % 16 := by omega
    rw [h]
  · show some (speed % 4096 &&& 0xFF) = some (speed &&& 0xFF)
    simp only [and_255_eq_mod]
    have h : speed % 4096 % 256 = speed % 256 := by omega
    rw [h]

/-- C7 counterexample: on the odd-length frame `[0]` the decoder's
out-of-range access `data[i + 1]` raises `IndexError`, not the structured
`MalformedFrameError` the claim names (which nothing in the code raises). -/
theorem defirmatify_odd_counterexample :
    defirmatify [0] = .error .indexError ∧
    defirmatify [0] ≠ .error .malformedFrameError := by
  refine ⟨rfl, ?_⟩
  intro h
  simp [defirmatify] at h

/-- C7 amended: every odd-length frame makes `defirmatify` fail, but with
an unstructured built-in exception — the `IndexError` of the final
`data[i + 1]` access, or a `ValueError` from `bytearray.append` if an
earlier pair already reassembles above 255 — never with
`MalformedFrameError` and never succeeding. -/
theorem defirmatify_odd_length (data : List Nat) (h : data.length % 2 = 1) :
    (defirmatify data = .error .indexError ∨ defirmatify data = .error .valueError) ∧
    defirmatify data ≠ .error .malformedFrameError := by
  induction data using defirmatify.induct with
  | case1 => simp at h
  | case2 x => exact ⟨Or.inl rfl, by simp [defirmatify]⟩
  | case3 lo hi rest hlt b hok ih =>
    have h2 : rest.length % 2 = 1 := by simp at h; omega
    rcases (ih h2).1 with he | he <;> rw [he] at hok <;> simp at hok
  | case4 lo hi rest hlt e herr ih =>
    have h2 : rest.length % 2 = 1 := by simp at h; omega
    have hv : defirmatify (lo :: hi :: rest) = .error e := by
      simp [defirmatify, hlt, herr]
    rcases (ih h2).1 with he | he
    · have he' := herr.symm.trans he
      injection he' with he2
      subst he2
      exact ⟨Or.inl hv, by rw [hv]; simp⟩
    · have he' := herr.symm.trans he
      injection he' with he2
      subst he2
      exact ⟨Or.inr hv, by rw [hv]; simp⟩
  | case5 lo hi rest hge =>
    have hv : defirmatify (lo :: hi :: rest) = .error .valueError := by
      simp [defirmatify, hge]
    exact ⟨Or.inr hv, by rw [hv]; simp⟩

/-- C7 amended witness: the odd-length frame `[1, 2, 3]` fails — here with
`ValueError`, since its first pair reassembles to `1 | 2 << 7 = 257`. -/
theorem defirmatify_odd_length_witness :
    (defirmatify [1, 2, 3] = .error .indexError ∨
     defirmatify [1, 2, 3] = .error .valueError) ∧
    defirmatify [1, 2, 3] ≠ .error .malformedFrameError :=
  defirmatify_odd_length [1, 2, 3] (by decide)

/-- C8 counterexample: `[0x80, 0x00]` has even length, its odd-indexed
element is 0, and every element is a byte, yet decoding then re-encoding
yields `[0x00, 0x01]`, not the original: the even-indexed element `0x80`
exceeds 0x7F, so its high bit is lost to `lo | hi << 7`'s bit 7. -/
theorem firmatify_defirmatify_counterexample :
    ([0x80, 0x00] : List Nat).length % 2 = 0 ∧
    ([0x80, 0x00] : List Nat).getD 1 0 ≤ 1 ∧
    (∀ b ∈ ([0x80, 0x00] : List Nat), b < 256) ∧
    Except.map firmatify (defirmatify [0x80, 0x00]) = .ok [0x00, 0x01] ∧
    Except.map firmatify (defirmatify [0x80, 0x00]) ≠ .ok [0x80, 0x00] := by
  refine ⟨rfl, by decide, by decide, rfl, ?_⟩
  intro h
  simp [defirmatify, firmatify, Except.map] at h

/-- A 7-bit pair with `lo < 0x80` and `hi ≤ 1` reassembles to a byte
below 256 and survives re-splitting. -/
theorem sevenbit_pair_reassemble :
    ∀ lo < 128, ∀ hi < 2,
      (lo ||| hi <<< 7) &&& 0x7F = lo ∧ ((lo ||| hi <<< 7) &&& 0x80) >>> 7 = hi ∧
      lo ||| hi <<< 7 < 256 := by
  decide

/-- C8 amended: for every even-length sequence `y` whose odd-indexed
elements are each 0 or 1 and whose even-indexed elements are bytes below
0x80, re-encoding the decoding returns `y`: `firmatify <$> defirmatify y = .ok y`.
(The claim's weaker bound of 0xFF on even-indexed elements is refuted above.) -/
theorem firmatify_defirmatify_roundtrip (y : List Nat) :
    y.length % 2 = 0 →
    (∀ i < y.length, i % 2 = 1 → y.getD i 0 ≤ 1) →
    (∀ i < y.length, i % 2 = 0 → y.getD i 0 < 128) →
    Except.map firmatify (defirmatify y) = .ok y := by
  induction y using defirmatify.induct with
  | case1 => intro _ _ _; rfl
  | case2 x => intro heven _ _; simp at heven
  | case3 lo hi rest hlt b hok ih =>
    intro heven hodd hlow
    have heven' : rest.length % 2 = 0 := by simp at heven; omega
    have hodd' : ∀ i < rest.length, i % 2 = 1 → rest.getD i 0 ≤ 1 := by
      intro i hi1 hi2
      have := hodd (i + 2) (by simp; omega) (by omega)
      simpa using this
    have hlow' : ∀ i < rest.length, i % 2 = 0 → rest.getD i 0 < 128 := by
      intro i hi1 hi2
      have := hlow (i + 2) (by simp; omega) (by omega)
      simpa using this
    have ihr := ih heven' hodd' hlow'
    rw [hok] at ihr
    simp only [Except.map] at ihr
    have hfb : firmatify b = rest := by simpa using ihr
    have hlo : lo < 128 := by simpa using hlow 0 (by simp) (by norm_num)
    have hhi : hi < 2 := by
      have := hodd 1 (by simp) (by norm_num)
      simp at this
      omega
    have hpair := sevenbit_pair_reassemble lo hlo hi hhi
    simp [defirmatify, hlt, hok, Except.map, firmatify, hpair.1, hpair.2.1, hfb]
  | case4 lo hi rest hlt e herr ih =>
    intro heven hodd hlow
    have heven' : rest.length % 2 = 0 := by simp at heven; omega
    have hodd' : ∀ i < rest.length, i % 2 = 1 → rest.getD i 0 ≤ 1 := by
      intro i hi1 hi2
      have := hodd (i + 2) (by simp; omega) (by omega)
      simpa using this
    have hlow' : ∀ i < rest.length, i % 2 = 0 → rest.getD i 0 < 128 := by
      intro i hi1 hi2
      have := hlow (i + 2) (by simp; omega) (by omega)
      simpa using this
    have ihr := ih heven' hodd' hlow'
    rw [herr] at ihr
    simp [Except.map] at ihr
  | case5 lo hi rest hge =>
    intro heven hodd hlow
    have hlo : lo < 128 := by simpa using hlow 0 (by simp) (by norm_num)
    have hhi : hi < 2 := by
      have := hodd 1 (by simp) (by norm_num)
      simp at this
      omega
    exact absurd (sevenbit_pair_reassemble lo hlo hi hhi).2.2 hge

/-- C8 amended witness: the firmatified form of `[0xEF, 0xBE]`,
`[0x6F, 0x01, 0x3E, 0x01]`, decodes and re-encodes to itself. -/
theorem firmatify_defirmatify_roundtrip_witness :
    Except.map firmatify (defirmatify [0x6F, 0x01, 0x3E, 0x01])
      = .ok [0x6F, 0x01, 0x3E, 0x01] :=
  firmatify_defirmatify_roundtrip [0x6F, 0x01, 0x3E, 0x01]
    (by decide) (by decide) (by decide)

/-- The low 7-bit mask keeps a value below 256. -/
theorem lowmask_lt_256 (p : Nat) : p &&& 0x7F < 256 := by
  have h := Nat.and_pow_two_sub_one_eq_mod p 7
  norm_num at h
  omega

/-- The extracted high bit `(p & 0x80) >> 7` is 0 or 1. -/
theorem highbit_lt_two (p : Nat) : (p &&& 0x80) >>> 7 < 2 := by
  rw [show (0x80 : Nat) = 2 ^ 7 from rfl, Nat.and_two_pow, Nat.shiftRight_eq_div_pow]
  cases p.testBit 7 <;> norm_num

/-- `firmatify` always doubles the length. -/
theorem firmatify_length (l : List Nat) : (firmatify l).length = 2 * l.length := by
  induction l with
  | nil => rfl
  | cons p rest ih => simp [firmatify, ih]; omega

/-- The pair of output bytes at positions `2*i, 2*i + 1` comes from the
input byte at position `i`. -/
theorem firmatify_getD (l : List Nat) :
    ∀ i < l.length,
      (firmatify l).getD (2 * i) 0 = l.getD i 0 &&& 0x7F ∧
      (firmatify l).getD (2 * i + 1) 0 = (l.getD i 0 &&& 0x80) >>> 7 := by
  induction l with
  | nil => intro i hi; simp at hi
  | cons p rest ih =>
    intro i hi
    cases i with
    | zero => simp [firmatify]
    | succ j =>
      have hj : j < rest.length := by simp at hi; omega
      obtain ⟨h1, h2⟩ := ih j hj
      constructor
      · have e : 2 * (j + 1) = 2 * j + 1 + 1 := by omega
        rw [e]
        simp only [firmatify, List.getD_cons_succ]
        exact h1
      · have e : 2 * (j + 1) + 1 = 2 * j + 1 + 1 + 1 := by omega
        rw [e]
        simp only [firmatify, List.getD_cons_succ]
        exact h2

/-- Every byte `firmatify` emits is below 256. -/
theorem firmatify_mem_lt (l : List Nat) : ∀ b ∈ firmatify l, b < 256 := by
  induction l with
  | nil => intro b hb; simp [firmatify] at hb
  | cons p rest ih =>
    intro b hb
    simp only [firmatify, List.mem_cons] at hb
    rcases hb with rfl | rfl | hb
    · exact lowmask_lt_256 p
    · exact lt_trans (highbit_lt_two p) (by norm_num)
    · exact ih b hb

/-- Every odd-indexed output byte of `firmatify` is 0 or 1. -/
theorem firmatify_oddpos (l : List Nat) :
    ∀ i < (firmatify l).length, i % 2 = 1 →
      (firmatify l).getD i 0 = 0 ∨ (firmatify l).getD i 0 = 1 := by
  induction l with
  | nil => intro i hi; simp [firmatify] at hi
  | cons p rest ih =>
    intro i hi hodd
    match i with
    | 0 => omega
    | 1 =>
      have := highbit_lt_two p
      simp only [firmatify, List.getD_cons_succ, List.getD_cons_zero]
      omega
    | (j + 2) =>
      have hj : j < (firmatify rest).length := by
        simp only [firmatify, List.length_cons] at hi
        omega
      have := ih j hj (by omega)
      simpa only [firmatify, List.getD_cons_succ] using this

/-- C9: the output of `firmatify` satisfies the SevenBitFrame invariant:
length exactly twice the payload's, consecutive pairs
`(p & 0x7F, (p & 0x80) >> 7)` in payload order, all elements in `[0,255]`,
and each pair's second element equal to 0 or 1. -/
theorem firmatify_sevenbit_invariant (payload : List Nat)
    (_h : ∀ p ∈ payload, p < 256) :
    (firmatify payload).length = 2 * payload.length ∧
    (∀ i < payload.length,
      (firmatify payload).getD (2 * i) 0 = payload.getD i 0 &&& 0x7F ∧
      (firmatify payload).getD (2 * i + 1) 0 = (payload.getD i 0 &&& 0x80) >>> 7) ∧
    (∀ b ∈ firmatify payload, b < 256) ∧
    (∀ i < (firmatify payload).length, i % 2 = 1 →
      (firmatify payload).getD i 0 = 0 ∨ (firmatify payload).getD i 0 = 1) :=
  ⟨firmatify_length payload, firmatify_getD payload,
   firmatify_mem_lt payload, firmatify_oddpos payload⟩

/-- C9 witness: the invariant at the docstring payload `[0xEF, 0xBE, 0xAD, 0xDE]`. -/
theorem firmatify_sevenbit_invariant_witness :
    (firmatify [0xEF, 0xBE, 0xAD, 0xDE]).length = 2 * ([0xEF, 0xBE, 0xAD, 0xDE] : List Nat).length ∧
    (∀ i < ([0xEF, 0xBE, 0xAD, 0xDE] : List Nat).length,
      (firmatify [0xEF, 0xBE, 0xAD, 0xDE]).getD (2 * i) 0
        = ([0xEF, 0xBE, 0xAD, 0xDE] : List Nat).getD i 0 &&& 0x7F ∧
      (firmatify [0xEF, 0xBE, 0xAD, 0xDE]).getD (2 * i + 1) 0
        = (([0xEF, 0xBE, 0xAD, 0xDE] : List Nat).getD i 0 &&& 0x80) >>> 7) ∧
    (∀ b ∈ firmatify [0xEF, 0xBE, 0xAD, 0xDE], b < 256) ∧
    (∀ i < (firmatify [0xEF, 0xBE, 0xAD, 0xDE]).length, i % 2 = 1 →
      (firmatify [0xEF, 0xBE, 0xAD, 0xDE]).getD i 0 = 0 ∨
      (firmatify [0xEF, 0xBE, 0xAD, 0xDE]).getD i 0 = 1) :=
  firmatify_sevenbit_invariant [0xEF, 0xBE, 0xAD, 0xDE] (by decide)
